import Mathlib

/-!
# Verification of the redflagsprofits analytics core

Shallow embedding, in Lean 4, of the analytics pipeline of the
`redflagsprofits` site generator, together with proofs of the
documented properties.

Embedding conventions:
* pandas timestamps are embedded as epoch-day numbers (`ℤ`); where code
  groups by calendar month, a date carries an additional absolute month
  index (`CalDate`);
* float arithmetic is embedded as exact arithmetic: `ℚ` where the code
  only uses field operations, `ℝ` where `exp`/`log`/`rpow` occur;
* a float division whose denominator can be `0` (which produces a
  non-finite IEEE value at run time) is embedded as an `Option`;
* dataframes are embedded as lists of row structures; a nullable column
  is an `Option` field and `dropna` is a filter on `isSome`;
* `float("inf")` results are embedded in `EReal` (as `⊤`).
-/

namespace RedFlags

/-! ## `data_loader._compute_daily_totals`: daily aggregation -/

/-- One raw wealth snapshot (a row of the parquet source):
`personName`, `crawl_date`, `finalWorth`. -/
structure Snapshot where
  personName : String
  crawl_date : ℤ
  finalWorth : ℝ

/-- One aggregated row: `date`, `total_wealth` (sum of `finalWorth` for
that date), `billionaire_count` (number of distinct `personName`s). -/
structure DailyTotal where
  date : ℤ
  total_wealth : ℝ
  billionaire_count : ℕ

/-- The distinct crawl dates of a snapshot set. -/
def dates_of (df : List Snapshot) : Finset ℤ :=
  (df.map (·.crawl_date)).toFinset

/-- `("finalWorth", "sum")` aggregate for one group. -/
def total_wealth_on (df : List Snapshot) (d : ℤ) : ℝ :=
  ((df.filter (fun s => s.crawl_date = d)).map (·.finalWorth)).sum

/-- `("personName", "nunique")` aggregate for one group. -/
def billionaire_count_on (df : List Snapshot) (d : ℤ) : ℕ :=
  ((df.filter (fun s => s.crawl_date = d)).map (·.personName)).dedup.length

/-- Embedding of `DataLoader._compute_daily_totals`: group by
`crawl_date`, aggregate sum / nunique, sort ascending by date. -/
def compute_daily_totals (df : List Snapshot) : List DailyTotal :=
  ((dates_of df).sort (· ≤ ·)).map (fun d =>
    { date := d
      total_wealth := total_wealth_on df d
      billionaire_count := billionaire_count_on df d })

lemma total_wealth_on_cons (s : Snapshot) (rest : List Snapshot) (d : ℤ) :
    total_wealth_on (s :: rest) d
      = (if s.crawl_date = d then s.finalWorth else 0) + total_wealth_on rest d := by
  by_cases hd : s.crawl_date = d <;>
    simp [total_wealth_on, List.filter_cons, hd]

lemma sum_fiber_wealth (df : List Snapshot) (S : Finset ℤ)
    (h : ∀ s ∈ df, s.crawl_date ∈ S) :
    (∑ d ∈ S, total_wealth_on df d) = (df.map (·.finalWorth)).sum := by
  induction df with
  | nil => simp [total_wealth_on]
  | cons s rest ih =>
    have hs : s.crawl_date ∈ S := h s (List.mem_cons_self _ _)
    have hrest : ∀ t ∈ rest, t.crawl_date ∈ S :=
      fun t ht => h t (List.mem_cons_of_mem _ ht)
    simp only [total_wealth_on_cons, Finset.sum_add_distrib, ih hrest,
      Finset.sum_ite_eq, hs, if_true, List.map_cons, List.sum_cons]

/-- **C3.** Aggregation into daily totals conserves wealth, bounds the
distinct-entity count of each date by the number of records dated that
day, and yields a series strictly sorted by date (so each date appears
exactly once). -/
theorem compute_daily_totals_spec (df : List Snapshot) :
    ((compute_daily_totals df).map (·.total_wealth)).sum
        = (df.map (·.finalWorth)).sum
    ∧ (∀ row ∈ compute_daily_totals df,
        row.billionaire_count
          ≤ (df.filter (fun s => s.crawl_date = row.date)).length)
    ∧ ((compute_daily_totals df).map (·.date)).Sorted (· < ·) := by
  refine ⟨?_, ?_, ?_⟩
  · have hperm : List.Perm
        (((dates_of df).sort (· ≤ ·)).map (fun d => total_wealth_on df d))
        ((dates_of df).toList.map (fun d => total_wealth_on df d)) :=
      (Finset.sort_perm_toList _ _).map _
    have h1 : ((compute_daily_totals df).map (·.total_wealth)).sum
        = (((dates_of df).sort (· ≤ ·)).map (fun d => total_wealth_on df d)).sum := by
      simp only [compute_daily_totals, List.map_map]
      rfl
    rw [h1, hperm.sum_eq, Finset.sum_to_list]
    exact sum_fiber_wealth df (dates_of df) (fun s hs => by
      simp [dates_of, List.mem_map]
      exact ⟨s, hs, rfl⟩)
  · intro row hrow
    simp only [compute_daily_totals, List.mem_map] at hrow
    obtain ⟨d, _, rfl⟩ := hrow
    simpa [billionaire_count_on] using
      le_trans (List.Sublist.length_le (List.dedup_sublist _))
        (le_of_eq (List.length_map _ _))
  · have : ((compute_daily_totals df).map (·.date)) = (dates_of df).sort (· ≤ ·) := by
      simp only [compute_daily_totals, List.map_map]
      exact List.map_id _
    rw [this]
    exact Finset.sort_sorted_lt _

/-! ## `data_loader._pct_change` and `chart_data_processor._get_summary_stats` -/

/-- Embedding of `DataLoader._pct_change`: the guarded percentage
change (`0` when `old` is zero). -/
def pct_change (new old : ℚ) : ℚ :=
  if old ≠ 0 then (new - old) / old * 100 else 0

/-- Float division as the interpreter performs it: a zero denominator
produces a non-finite value (infinity or NaN), embedded as `none`. -/
def float_div (a b : ℚ) : Option ℚ :=
  if b = 0 then none else some (a / b)

/-- Embedding of the `totalIncrease` entry of
`ChartDataProcessor._get_summary_stats`: the code divides by the first
`total_wealth` directly, with no zero guard. -/
def summary_total_increase (wealth : List ℚ) : Option ℚ :=
  (float_div ((wealth.getLast?.getD 0) - (wealth.head?.getD 0))
      (wealth.head?.getD 0)).map (· * 100)

/-- **C7, counterexample.** On a series whose first `total_wealth` is 0,
the summary stat `totalIncrease` is not the guarded `pct_change` value:
the code divides by zero and yields a non-finite value. -/
theorem summary_total_increase_cex :
    ¬ summary_total_increase [0, 5] = some (pct_change 5 0) := by
  decide

/-- **C7, amended.** `totalIncrease` agrees with
`pct_change(last, first)` exactly when the first `total_wealth` is
nonzero; when it is zero the summary-stat code performs an unguarded
division and yields a non-finite value (embedded `none`), while
`_pct_change` itself is guarded and returns 0. -/
theorem summary_total_increase_amended (wealth : List ℚ) :
    (wealth.head?.getD 0 ≠ 0 →
      summary_total_increase wealth
        = some (pct_change (wealth.getLast?.getD 0) (wealth.head?.getD 0)))
    ∧ (wealth.head?.getD 0 = 0 → summary_total_increase wealth = none)
    ∧ (∀ x : ℚ, pct_change x 0 = 0) := by
  refine ⟨fun h => ?_, fun h => ?_, fun x => by simp [pct_change]⟩
  · simp [summary_total_increase, float_div, pct_change, h]
  · simp [summary_total_increase, float_div, h]

/-- Witness for the amended C7 theorem at a concrete series. -/
theorem summary_total_increase_amended_witness :
    ([ (1 : ℚ), 3].head?.getD 0 ≠ 0)
    ∧ summary_total_increase [1, 3] = some (pct_change 3 1) := by
  refine ⟨by decide, ?_⟩
  have h := (summary_total_increase_amended [1, 3]).1 (by decide)
  simpa using h

/-! ## `data_loader._calculate_growth_metrics` and `_get_monthly_averages` -/

/-- A pandas timestamp as the growth code observes it: its epoch-day
number (for `.days` differences) and its absolute calendar-month index
(for `to_period("M")` grouping). -/
structure CalDate where
  epoch_day : ℤ
  month_idx : ℤ
deriving DecidableEq

/-- One row of the `daily_totals` frame consumed by
`_calculate_growth_metrics` (counts become floats once averaged). -/
structure TotalsRow where
  date : CalDate
  total_wealth : ℝ
  billionaire_count : ℝ

/-- The growth-metric triple returned by `_calculate_growth_metrics`;
`doubling_time` can be `float("inf")`, hence `EReal`. -/
structure GrowthMetrics where
  growth_rate : ℝ
  doubling_time : EReal
  daily_accumulation : ℝ

/-- The distinct month indices of a series, in first-appearance order
(the grouping keys of `groupby("period")`). -/
def months_of (dt : List TotalsRow) : List ℤ :=
  (dt.map (fun r => r.date.month_idx)).dedup

/-- The rows of one calendar month. -/
def month_group (dt : List TotalsRow) (m : ℤ) : List TotalsRow :=
  dt.filter (fun r => r.date.month_idx = m)

/-- The aggregated row of one month: mean `total_wealth`, mean
`billionaire_count`, `("date", "first")` representative date. -/
noncomputable def month_row (dt : List TotalsRow) (m : ℤ) : TotalsRow :=
  let g := month_group dt m
  { date := { epoch_day := ((g.head?.map (fun r => r.date.epoch_day)).getD 0)
              month_idx := m }
    total_wealth := ((g.map (·.total_wealth)).sum) / g.length
    billionaire_count := ((g.map (·.billionaire_count)).sum) / g.length }

/-- Embedding of `DataLoader._get_monthly_averages`: group by calendar
month (pandas sorts the group keys), aggregate means and first date,
then `sort_values("date")`. -/
noncomputable def get_monthly_averages (dt : List TotalsRow) : List TotalsRow :=
  ((((months_of dt).mergeSort (fun a b => decide (a ≤ b))).map
      (month_row dt)).mergeSort
    (fun a b => decide (a.date.epoch_day ≤ b.date.epoch_day)))

/-- `source.total_wealth.iloc[0]`. -/
def first_wealth (l : List TotalsRow) : ℝ := (l.head?.map (·.total_wealth)).getD 0

/-- `source.total_wealth.iloc[-1]`. -/
def last_wealth (l : List TotalsRow) : ℝ := (l.getLast?.map (·.total_wealth)).getD 0

/-- `(source.date.iloc[-1] - source.date.iloc[0]).days`. -/
def days_diff (l : List TotalsRow) : ℤ :=
  ((l.getLast?.map (fun r => r.date.epoch_day)).getD 0)
    - ((l.head?.map (fun r => r.date.epoch_day)).getD 0)

/-- The series the CAGR is computed from: monthly averages when the
daily series has more than 60 points, the daily series otherwise. -/
noncomputable def growth_source (dt : List TotalsRow) : List TotalsRow :=
  if 60 < dt.length then get_monthly_averages dt else dt

/-- The tail of `_calculate_growth_metrics` after source selection:
degenerate guard, CAGR with `np.clip`, doubling time, daily
accumulation. -/
noncomputable def growth_from_source (src : List TotalsRow) : GrowthMetrics :=
  let start_val := first_wealth src
  let end_val := last_wealth src
  let dd := days_diff src
  if dd = 0 ∨ start_val = 0 then ⟨0, ⊤, 0⟩
  else
    let years : ℝ := (dd : ℝ) / 365.25
    let cagr : ℝ := max (-50) (min (((end_val / start_val) ^ (1 / years) - 1) * 100) 100)
    { growth_rate := cagr
      doubling_time :=
        if 0 < cagr then ((Real.log 2 / Real.log (1 + cagr / 100) : ℝ) : EReal) else ⊤
      daily_accumulation :=
        if 0 < cagr then (end_val - start_val) / (1000 * (dd : ℝ)) else 0 }

/-- Embedding of `DataLoader._calculate_growth_metrics`. -/
noncomputable def calculate_growth_metrics (dt : List TotalsRow) : GrowthMetrics :=
  if dt.length < 2 then ⟨0, ⊤, 0⟩
  else growth_from_source (growth_source dt)

/-- **C2.** On every accepted daily-totals series the growth metrics
follow the documented formulas: the degenerate guard returns
`(0, +∞, 0)`; otherwise the growth rate is the clamped CAGR (hence
always in `[-50, 100]`), the doubling time is `ln 2 / ln (1 + r/100)`
for a positive rate and `+∞` otherwise, and the daily accumulation is
`(end - start) / (1000 · days)` for a positive rate and `0`
otherwise. -/
theorem growth_metrics_spec (dt : List TotalsRow) (h2 : 2 ≤ dt.length) :
    (days_diff (growth_source dt) = 0 ∨ first_wealth (growth_source dt) = 0 →
        calculate_growth_metrics dt = ⟨0, ⊤, 0⟩)
    ∧ (days_diff (growth_source dt) ≠ 0 → first_wealth (growth_source dt) ≠ 0 →
        (calculate_growth_metrics dt).growth_rate
            = max (-50) (min (((last_wealth (growth_source dt)
                    / first_wealth (growth_source dt))
                  ^ (1 / ((days_diff (growth_source dt) : ℝ) / 365.25)) - 1) * 100) 100)
        ∧ -50 ≤ (calculate_growth_metrics dt).growth_rate
        ∧ (calculate_growth_metrics dt).growth_rate ≤ 100
        ∧ (0 < (calculate_growth_metrics dt).growth_rate →
            (calculate_growth_metrics dt).doubling_time
                = ((Real.log 2
                    / Real.log (1 + (calculate_growth_metrics dt).growth_rate / 100) : ℝ)
                  : EReal)
            ∧ (calculate_growth_metrics dt).daily_accumulation
                = (last_wealth (growth_source dt) - first_wealth (growth_source dt))
                    / (1000 * (days_diff (growth_source dt) : ℝ)))
        ∧ ((calculate_growth_metrics dt).growth_rate ≤ 0 →
            (calculate_growth_metrics dt).doubling_time = ⊤
            ∧ (calculate_growth_metrics dt).daily_accumulation = 0)) := by
  have hlen : ¬ dt.length < 2 := by omega
  constructor
  · intro h
    simp only [calculate_growth_metrics, hlen, if_false, growth_from_source, h, if_true]
  · intro hdd hsv
    have hguard : ¬ (days_diff (growth_source dt) = 0
        ∨ first_wealth (growth_source dt) = 0) := by
      push_neg
      exact ⟨hdd, hsv⟩
    have hcalc : calculate_growth_metrics dt
        = growth_from_source (growth_source dt) := by
      simp only [calculate_growth_metrics, hlen, if_false]
    set src := growth_source dt with hsrc
    have hgr : (calculate_growth_metrics dt).growth_rate
        = max (-50) (min (((last_wealth src / first_wealth src)
              ^ (1 / ((days_diff src : ℝ) / 365.25)) - 1) * 100) 100) := by
      rw [hcalc]
      simp only [growth_from_source, hguard, if_false]
    refine ⟨hgr, ?_, ?_, ?_, ?_⟩
    · rw [hgr]; exact le_max_left _ _
    · rw [hgr]
      exact max_le (by norm_num) (min_le_right _ _)
    · intro hpos
      rw [hcalc] at hpos ⊢
      simp only [growth_from_source, hguard, if_false] at hpos ⊢
      exact ⟨by rw [if_pos hpos], by rw [if_pos hpos]⟩
    · intro hnonpos
      rw [hcalc] at hnonpos ⊢
      simp only [growth_from_source, hguard, if_false] at hnonpos ⊢
      have hnlt : ¬ (0:ℝ) < max (-50) (min (((last_wealth src / first_wealth src)
            ^ (1 / ((days_diff src : ℝ) / 365.25)) - 1) * 100) 100) :=
        not_lt.mpr hnonpos
      exact ⟨by simp only [if_neg hnlt], by simp only [if_neg hnlt]⟩

/-- Witness for C2 at the two-point series of the spec scenario
(`days_diff = 1`, start 30, end 35). -/
theorem growth_metrics_spec_witness :
    (2 ≤ ([⟨⟨0, 0⟩, 30, 2⟩, ⟨⟨1, 0⟩, 35, 2⟩] : List TotalsRow).length)
    ∧ (days_diff (growth_source [⟨⟨0, 0⟩, 30, 2⟩, ⟨⟨1, 0⟩, 35, 2⟩]) ≠ 0)
    ∧ (first_wealth (growth_source [⟨⟨0, 0⟩, 30, 2⟩, ⟨⟨1, 0⟩, 35, 2⟩]) ≠ 0)
    ∧ -50 ≤ (calculate_growth_metrics [⟨⟨0, 0⟩, 30, 2⟩, ⟨⟨1, 0⟩, 35, 2⟩]).growth_rate := by
  have hsrc : growth_source [⟨⟨0, 0⟩, 30, 2⟩, ⟨⟨1, 0⟩, 35, 2⟩]
      = [⟨⟨0, 0⟩, 30, 2⟩, ⟨⟨1, 0⟩, 35, 2⟩] := by
    simp [growth_source]
  have hdd : days_diff (growth_source [⟨⟨0, 0⟩, 30, 2⟩, ⟨⟨1, 0⟩, 35, 2⟩]) ≠ 0 := by
    rw [hsrc]; simp [days_diff]
  have hsv : first_wealth (growth_source [⟨⟨0, 0⟩, 30, 2⟩, ⟨⟨1, 0⟩, 35, 2⟩]) ≠ 0 := by
    rw [hsrc]; norm_num [first_wealth]
  exact ⟨by norm_num, hdd, hsv,
    (((growth_metrics_spec _ (by norm_num)).2 hdd hsv).2).1⟩

/-- **C4.** A series longer than 60 points has its growth metrics
computed from the monthly-averaged series, whose rows are exactly the
calendar months of the input with mean wealth, mean count and the first
date of the month as representative date; a series of at most 60 points
is used directly. -/
theorem monthly_source_selection (dt : List TotalsRow) (h2 : 2 ≤ dt.length) :
    (60 < dt.length →
        calculate_growth_metrics dt = growth_from_source (get_monthly_averages dt)
        ∧ (get_monthly_averages dt).length = (months_of dt).length
        ∧ (∀ r ∈ get_monthly_averages dt,
            r.date.month_idx ∈ months_of dt
            ∧ r.total_wealth
                = ((month_group dt r.date.month_idx).map (·.total_wealth)).sum
                  / (month_group dt r.date.month_idx).length
            ∧ r.billionaire_count
                = ((month_group dt r.date.month_idx).map (·.billionaire_count)).sum
                  / (month_group dt r.date.month_idx).length
            ∧ some r.date.epoch_day
                = ((month_group dt r.date.month_idx).head?.map
                    (fun t => t.date.epoch_day))))
    ∧ (dt.length ≤ 60 → calculate_growth_metrics dt = growth_from_source dt) := by
  have hlen : ¬ dt.length < 2 := by omega
  constructor
  · intro h60
    refine ⟨?_, ?_, ?_⟩
    · simp only [calculate_growth_metrics, hlen, if_false, growth_source, h60, if_true]
    · simp [get_monthly_averages]
    · intro r hr
      simp only [get_monthly_averages, List.mem_mergeSort, List.mem_map] at hr
      obtain ⟨m, hm, rfl⟩ := hr
      have hmi : (month_row dt m).date.month_idx = m := rfl
      have hne : month_group dt m ≠ [] := by
        rw [months_of, List.mem_dedup, List.mem_map] at hm
        obtain ⟨t, ht, rfl⟩ := hm
        have : t ∈ month_group dt t.date.month_idx := by
          simp [month_group, ht]
        exact List.ne_nil_of_mem this
      rw [hmi]
      refine ⟨hm, rfl, rfl, ?_⟩
      cases hmg : month_group dt m with
      | nil => exact absurd hmg hne
      | cons a l => simp [month_row, hmg]
  · intro h60
    have : ¬ 60 < dt.length := by omega
    simp only [calculate_growth_metrics, hlen, if_false, growth_source, this]

/-- A concrete 61-point daily series (two calendar months). -/
noncomputable def sixtyOneDays : List TotalsRow :=
  (List.range 61).map (fun (i : ℕ) => ⟨⟨(i : ℤ), (i : ℤ) / 31⟩, 1, 1⟩)

/-- Witness for C4: the 61-point series selects the monthly-averaged
source. -/
theorem monthly_source_selection_witness :
    (2 ≤ sixtyOneDays.length ∧ 60 < sixtyOneDays.length)
    ∧ calculate_growth_metrics sixtyOneDays
        = growth_from_source (get_monthly_averages sixtyOneDays) := by
  have hl : sixtyOneDays.length = 61 := by
    unfold sixtyOneDays
    rw [List.length_map, List.length_range]
  refine ⟨⟨by omega, by omega⟩, ?_⟩
  exact ((monthly_source_selection sixtyOneDays (by omega)).1 (by omega)).1

/-! ## `chart_data_processor._calculate_exponential_fit` -/

/-- One row of the chart frame: `date`, `days_from_start`,
`total_wealth`. -/
structure ChartRow where
  date : ℤ
  days_from_start : ℤ
  total_wealth : ℝ

/-- The result record of `_calculate_exponential_fit`. -/
structure FitParams where
  a : ℝ
  b : ℝ
  r_squared : ℝ
  annualGrowthRate : ℝ

/-- `df[df["total_wealth"] > 0]`. -/
noncomputable def fit_valid (df : List ChartRow) : List ChartRow :=
  df.filter (fun r => 0 < r.total_wealth)

/-- The regressor sequence: `days_from_start` of the qualifying rows. -/
noncomputable def fit_x (df : List ChartRow) (i : ℕ) : ℝ :=
  (((fit_valid df).getD i ⟨0, 0, 0⟩).days_from_start : ℝ)

/-- The regressand sequence: `log(total_wealth)` of the qualifying
rows. -/
noncomputable def fit_y (df : List ChartRow) (i : ℕ) : ℝ :=
  Real.log ((fit_valid df).getD i ⟨0, 0, 0⟩).total_wealth

/-- Slope of the degree-1 least-squares fit (`np.polyfit(x, y, 1)`). -/
noncomputable def ols_slope (n : ℕ) (x y : ℕ → ℝ) : ℝ :=
  ((n : ℝ) * (∑ i ∈ Finset.range n, x i * y i)
      - (∑ i ∈ Finset.range n, x i) * (∑ i ∈ Finset.range n, y i))
    / ((n : ℝ) * (∑ i ∈ Finset.range n, x i ^ 2)
      - (∑ i ∈ Finset.range n, x i) ^ 2)

/-- Intercept of the degree-1 least-squares fit. -/
noncomputable def ols_intercept (n : ℕ) (x y : ℕ → ℝ) : ℝ :=
  ((∑ i ∈ Finset.range n, y i)
      - ols_slope n x y * (∑ i ∈ Finset.range n, x i)) / n

/-- `ss_res`: residual sum of squares against `y_pred = b·x + log_a`. -/
noncomputable def ss_res (n : ℕ) (x y : ℕ → ℝ) : ℝ :=
  ∑ i ∈ Finset.range n, (y i - (ols_slope n x y * x i + ols_intercept n x y)) ^ 2

/-- `ss_tot`: total sum of squares against the mean of `y`. -/
noncomputable def ss_tot (n : ℕ) (y : ℕ → ℝ) : ℝ :=
  ∑ i ∈ Finset.range n, (y i - (∑ j ∈ Finset.range n, y j) / n) ^ 2

/-- Embedding of `ChartDataProcessor._calculate_exponential_fit`. -/
noncomputable def calculate_exponential_fit (df : List ChartRow) : FitParams :=
  if (fit_valid df).length < 2 then ⟨1, 0, 0, 0⟩
  else
    let n := (fit_valid df).length
    let b := ols_slope n (fit_x df) (fit_y df)
    { a := Real.exp (ols_intercept n (fit_x df) (fit_y df))
      b := b
      r_squared := if 0 < ss_tot n (fit_y df)
          then 1 - ss_res n (fit_x df) (fit_y df) / ss_tot n (fit_y df) else 0
      annualGrowthRate := (Real.exp (b * 365.25) - 1) * 100 }

lemma sum_centered_mul (n : ℕ) (hn : (n : ℝ) ≠ 0) (x y : ℕ → ℝ) :
    (∑ i ∈ Finset.range n, (x i - (∑ j ∈ Finset.range n, x j) / n)
        * (y i - (∑ j ∈ Finset.range n, y j) / n))
      = (∑ i ∈ Finset.range n, x i * y i)
        - (∑ i ∈ Finset.range n, x i) * (∑ i ∈ Finset.range n, y i) / n := by
  set Sx := ∑ j ∈ Finset.range n, x j with hSx
  set Sy := ∑ j ∈ Finset.range n, y j with hSy
  have expand : ∀ i ∈ Finset.range n,
      (x i - Sx / n) * (y i - Sy / n)
        = x i * y i - (Sy / n) * x i - (Sx / n) * y i + (Sx / n) * (Sy / n) := by
    intro i _
    ring
  rw [Finset.sum_congr rfl expand]
  simp only [Finset.sum_add_distrib, Finset.sum_sub_distrib, ← Finset.mul_sum,
    Finset.sum_const, Finset.card_range, nsmul_eq_mul, ← hSx, ← hSy]
  field_simp
  ring

lemma slope_mul_centered_sq (n : ℕ) (hn : (n : ℝ) ≠ 0) (x y : ℕ → ℝ) :
    ols_slope n x y
        * (∑ i ∈ Finset.range n, (x i - (∑ j ∈ Finset.range n, x j) / n) ^ 2)
      = ∑ i ∈ Finset.range n,
          (x i - (∑ j ∈ Finset.range n, x j) / n)
            * (y i - (∑ j ∈ Finset.range n, y j) / n) := by
  set Sx := ∑ j ∈ Finset.range n, x j with hSx
  set Sy := ∑ j ∈ Finset.range n, y j with hSy
  have hsq : (∑ i ∈ Finset.range n, (x i - Sx / n) ^ 2)
      = (∑ i ∈ Finset.range n, x i * x i) - Sx * Sx / n := by
    have := sum_centered_mul n hn x x
    rw [← this]
    exact Finset.sum_congr rfl (fun i _ => by rw [pow_two])
  by_cases hD : (∑ i ∈ Finset.range n, (x i - Sx / n) ^ 2) = 0
  · have hX0 : ∀ i ∈ Finset.range n, x i - Sx / n = 0 := by
      intro i hi
      have h0 := (Finset.sum_eq_zero_iff_of_nonneg
        (fun i _ => sq_nonneg (x i - Sx / n))).mp hD i hi
      exact (pow_eq_zero_iff two_ne_zero).mp h0
    have hXY0 : (∑ i ∈ Finset.range n,
        (x i - Sx / n) * (y i - Sy / n)) = 0 :=
      Finset.sum_eq_zero (fun i hi => by rw [hX0 i hi, zero_mul])
    rw [hD, hXY0, mul_zero]
  · have hmul : (∑ i ∈ Finset.range n, x i * y i)
        = ∑ i ∈ Finset.range n, x i * y i := rfl
    have hxy := sum_centered_mul n hn x y
    have hDen : (n : ℝ) * (∑ i ∈ Finset.range n, x i ^ 2) - Sx ^ 2
        = (n : ℝ) * (∑ i ∈ Finset.range n, (x i - Sx / n) ^ 2) := by
      rw [hsq]
      have : (∑ i ∈ Finset.range n, x i ^ 2)
          = ∑ i ∈ Finset.range n, x i * x i :=
        Finset.sum_congr rfl (fun i _ => pow_two (x i))
      rw [this]
      field_simp
      ring
    have hNum : (n : ℝ) * (∑ i ∈ Finset.range n, x i * y i) - Sx * Sy
        = (n : ℝ) * (∑ i ∈ Finset.range n,
            (x i - Sx / n) * (y i - Sy / n)) := by
      rw [hxy]
      field_simp
      ring
    have hslope : ols_slope n x y
        = (∑ i ∈ Finset.range n, (x i - Sx / n) * (y i - Sy / n))
          / (∑ i ∈ Finset.range n, (x i - Sx / n) ^ 2) := by
      rw [ols_slope, ← hSx, ← hSy, hNum, hDen,
        mul_div_mul_left _ _ hn]
    rw [hslope, div_mul_cancel₀ _ hD]

lemma ss_res_eq (n : ℕ) (hn : (n : ℝ) ≠ 0) (x y : ℕ → ℝ) :
    ss_res n x y
      = ss_tot n y
        - ols_slope n x y
          * ∑ i ∈ Finset.range n,
              (x i - (∑ j ∈ Finset.range n, x j) / n)
                * (y i - (∑ j ∈ Finset.range n, y j) / n) := by
  set Sx := ∑ j ∈ Finset.range n, x j with hSx
  set Sy := ∑ j ∈ Finset.range n, y j with hSy
  set b := ols_slope n x y with hb
  have hc : ols_intercept n x y = Sy / n - b * (Sx / n) := by
    rw [ols_intercept, ← hSx, ← hSy, ← hb, sub_div, mul_div_assoc]
  have hterm : ∀ i ∈ Finset.range n,
      (y i - (b * x i + ols_intercept n x y)) ^ 2
        = (y i - Sy / n) ^ 2
          - (2 * b) * ((x i - Sx / n) * (y i - Sy / n))
          + b ^ 2 * (x i - Sx / n) ^ 2 := by
    intro i _
    rw [hc]
    ring
  have h1 : ss_res n x y
      = (∑ i ∈ Finset.range n, (y i - Sy / n) ^ 2)
        - (2 * b) * (∑ i ∈ Finset.range n, (x i - Sx / n) * (y i - Sy / n))
        + b ^ 2 * (∑ i ∈ Finset.range n, (x i - Sx / n) ^ 2) := by
    rw [ss_res, ← hb, Finset.sum_congr rfl hterm, Finset.sum_add_distrib,
      Finset.sum_sub_distrib, ← Finset.mul_sum, ← Finset.mul_sum]
  have h2 : b ^ 2 * (∑ i ∈ Finset.range n, (x i - Sx / n) ^ 2)
      = b * (∑ i ∈ Finset.range n, (x i - Sx / n) * (y i - Sy / n)) := by
    have := slope_mul_centered_sq n hn x y
    rw [← hSx, ← hSy, ← hb] at this
    calc b ^ 2 * (∑ i ∈ Finset.range n, (x i - Sx / n) ^ 2)
        = b * (b * ∑ i ∈ Finset.range n, (x i - Sx / n) ^ 2) := by ring
      _ = b * (∑ i ∈ Finset.range n, (x i - Sx / n) * (y i - Sy / n)) := by
          rw [this]
  have h3 : ss_tot n y = ∑ i ∈ Finset.range n, (y i - Sy / n) ^ 2 := by
    rw [ss_tot, ← hSy]
  rw [h1, h2, h3]
  ring

lemma ss_res_le_ss_tot (n : ℕ) (hn : (n : ℝ) ≠ 0) (x y : ℕ → ℝ) :
    ss_res n x y ≤ ss_tot n y := by
  rw [ss_res_eq n hn x y]
  have h2 : ols_slope n x y
      * (∑ i ∈ Finset.range n,
          (x i - (∑ j ∈ Finset.range n, x j) / n)
            * (y i - (∑ j ∈ Finset.range n, y j) / n))
      = ols_slope n x y ^ 2
        * (∑ i ∈ Finset.range n,
            (x i - (∑ j ∈ Finset.range n, x j) / n) ^ 2) := by
    rw [← slope_mul_centered_sq n hn x y]
    ring
  rw [h2]
  have hpos : 0 ≤ ols_slope n x y ^ 2
      * (∑ i ∈ Finset.range n,
          (x i - (∑ j ∈ Finset.range n, x j) / n) ^ 2) := by
    apply mul_nonneg (sq_nonneg _)
    exact Finset.sum_nonneg (fun i _ => sq_nonneg _)
  linarith

lemma ss_res_nonneg (n : ℕ) (x y : ℕ → ℝ) : 0 ≤ ss_res n x y :=
  Finset.sum_nonneg (fun _ _ => sq_nonneg _)

/-- **C5.** The exponential fit restricts to rows with positive
`total_wealth`; fewer than 2 qualifying rows give the degenerate fit
`{a: 1, b: 0, r_squared: 0, annualGrowthRate: 0}`; otherwise `a` is the
exponential of the least-squares intercept, `r_squared` is
`1 - ss_res/ss_tot` (0 when `ss_tot = 0`), the annual growth rate is
`(exp(b·365.25) - 1)·100`, and `r_squared ∈ [0, 1]` whenever the
log-values have positive variance. -/
theorem exponential_fit_spec (df : List ChartRow) :
    ((fit_valid df).length < 2 → calculate_exponential_fit df = ⟨1, 0, 0, 0⟩)
    ∧ (2 ≤ (fit_valid df).length →
        (calculate_exponential_fit df).a
            = Real.exp (ols_intercept (fit_valid df).length (fit_x df) (fit_y df))
        ∧ (calculate_exponential_fit df).b
            = ols_slope (fit_valid df).length (fit_x df) (fit_y df)
        ∧ (calculate_exponential_fit df).r_squared
            = (if 0 < ss_tot (fit_valid df).length (fit_y df)
              then 1 - ss_res (fit_valid df).length (fit_x df) (fit_y df)
                  / ss_tot (fit_valid df).length (fit_y df)
              else 0)
        ∧ (calculate_exponential_fit df).annualGrowthRate
            = (Real.exp (ols_slope (fit_valid df).length (fit_x df) (fit_y df)
                * 365.25) - 1) * 100
        ∧ (0 < ss_tot (fit_valid df).length (fit_y df) →
            0 ≤ (calculate_exponential_fit df).r_squared
            ∧ (calculate_exponential_fit df).r_squared ≤ 1)) := by
  constructor
  · intro h
    rw [calculate_exponential_fit, if_pos h]
  · intro h
    have hlt : ¬ (fit_valid df).length < 2 := by omega
    have hn : ((fit_valid df).length : ℝ) ≠ 0 := by
      have : 0 < (fit_valid df).length := by omega
      positivity
    refine ⟨?_, ?_, ?_, ?_, ?_⟩
    · rw [calculate_exponential_fit, if_neg hlt]
    · rw [calculate_exponential_fit, if_neg hlt]
    · rw [calculate_exponential_fit, if_neg hlt]
    · rw [calculate_exponential_fit, if_neg hlt]
    · intro hpos
      have hr : (calculate_exponential_fit df).r_squared
          = 1 - ss_res (fit_valid df).length (fit_x df) (fit_y df)
              / ss_tot (fit_valid df).length (fit_y df) := by
        rw [calculate_exponential_fit, if_neg hlt]
        simp only [if_pos hpos]
      rw [hr]
      constructor
      · have hle := ss_res_le_ss_tot (fit_valid df).length hn (fit_x df) (fit_y df)
        have := div_le_one_of_le₀ hle (le_of_lt hpos)
        linarith
      · have h0 := ss_res_nonneg (fit_valid df).length (fit_x df) (fit_y df)
        have := div_nonneg h0 (le_of_lt hpos)
        linarith

/-- A concrete two-point chart frame whose log-values are `0` and `1`. -/
noncomputable def twoPointFrame : List ChartRow :=
  [⟨0, 0, 1⟩, ⟨1, 1, Real.exp 1⟩]

/-- Witness for C5 at a concrete two-point series with positive
variance of the log-values. -/
theorem exponential_fit_spec_witness :
    (2 ≤ (fit_valid twoPointFrame).length)
    ∧ (0 < ss_tot (fit_valid twoPointFrame).length (fit_y twoPointFrame))
    ∧ 0 ≤ (calculate_exponential_fit twoPointFrame).r_squared
    ∧ (calculate_exponential_fit twoPointFrame).r_squared ≤ 1 := by
  have hv : fit_valid twoPointFrame = twoPointFrame := by
    simp [fit_valid, twoPointFrame, List.filter_cons, Real.exp_pos, zero_lt_one]
  have hlen : (fit_valid twoPointFrame).length = 2 := by
    rw [hv]
    rfl
  have h2 : 2 ≤ (fit_valid twoPointFrame).length := le_of_eq hlen.symm
  have hy0 : fit_y twoPointFrame 0 = 0 := by
    rw [fit_y, hv]
    simp [twoPointFrame, Real.log_one]
  have hy1 : fit_y twoPointFrame 1 = 1 := by
    rw [fit_y, hv]
    simp [twoPointFrame, Real.log_exp]
  have hss : 0 < ss_tot (fit_valid twoPointFrame).length (fit_y twoPointFrame) := by
    rw [hlen, ss_tot]
    simp only [Finset.sum_range_succ, Finset.sum_range_zero, hy0, hy1]
    norm_num
  have hend := ((exponential_fit_spec twoPointFrame).2 h2).2.2.2.2 hss
  exact ⟨h2, hss, hend.1, hend.2⟩

/-! ## `chart_data_processor._generate_trend_line` -/

/-- Integer conversion of a float as `int()` performs it: truncation
toward zero. -/
noncomputable def py_int (t : ℝ) : ℤ := if 0 ≤ t then ⌊t⌋ else ⌈t⌉

/-- `df["days_from_start"].max()`. -/
def days_range (df : List ChartRow) : ℤ :=
  ((df.map (·.days_from_start)).max?).getD 0

/-- `df["date"].iloc[0]`. -/
def start_date (df : List ChartRow) : ℤ := (df.head?.map (·.date)).getD 0

/-- The i-th of the 100 uniformly spaced day offsets,
`np.linspace(0, days_range, 100)[i]`. -/
noncomputable def trend_offset (df : List ChartRow) (i : ℕ) : ℝ :=
  (days_range df : ℝ) * i / 99

/-- Embedding of `ChartDataProcessor._generate_trend_line`: 100 points,
each labelled `start_date + int(days)` and valued `a·exp(b·days)`. -/
noncomputable def generate_trend_line (df : List ChartRow) (fp : FitParams) :
    List (ℤ × ℝ) :=
  (List.range 100).map (fun i =>
    (start_date df + py_int (trend_offset df i),
     fp.a * Real.exp (fp.b * trend_offset df i)))

/-- **C8.** The trend line has exactly 100 points; the day offsets are
uniformly spaced from 0 to the maximum offset; the i-th value is
`a·exp(b·day)` (so the value at offset 0 is exactly `a`); and the i-th
date label is the calendar day of `start_date + day offset`. -/
theorem trend_line_spec (df : List ChartRow) (fp : FitParams)
    (hR : 0 ≤ days_range df) :
    (generate_trend_line df fp).length = 100
    ∧ trend_offset df 0 = 0
    ∧ trend_offset df 99 = (days_range df : ℝ)
    ∧ (∀ i : ℕ,
        trend_offset df (i + 1) - trend_offset df i = (days_range df : ℝ) / 99)
    ∧ (∀ i, i < 100 →
        (generate_trend_line df fp).getD i (0, 0)
          = (⌊(start_date df : ℝ) + trend_offset df i⌋,
             fp.a * Real.exp (fp.b * trend_offset df i)))
    ∧ ((generate_trend_line df fp).getD 0 (0, 0)).2 = fp.a := by
  have hoff_nonneg : ∀ i : ℕ, 0 ≤ trend_offset df i := by
    intro i
    apply div_nonneg _ (by norm_num)
    exact mul_nonneg (by exact_mod_cast hR) (Nat.cast_nonneg i)
  have hget : ∀ i, i < 100 →
      (generate_trend_line df fp).getD i (0, 0)
        = (start_date df + py_int (trend_offset df i),
           fp.a * Real.exp (fp.b * trend_offset df i)) := by
    intro i hi
    rw [generate_trend_line, List.getD_eq_getElem?_getD, List.getElem?_map,
      List.getElem?_range hi]
    rfl
  have hmain : ∀ i, i < 100 →
      (generate_trend_line df fp).getD i (0, 0)
        = (⌊(start_date df : ℝ) + trend_offset df i⌋,
           fp.a * Real.exp (fp.b * trend_offset df i)) := by
    intro i hi
    rw [hget i hi, py_int, if_pos (hoff_nonneg i), Int.floor_int_add]
  refine ⟨by simp [generate_trend_line], by simp [trend_offset],
    ?_, ?_, hmain, ?_⟩
  · rw [trend_offset]
    norm_num
  · intro i
    rw [trend_offset, trend_offset]
    push_cast
    ring
  · rw [hmain 0 (by norm_num)]
    simp [trend_offset]

/-- Witness for C8 at a concrete two-point frame and fit. -/
theorem trend_line_spec_witness :
    (0 ≤ days_range [⟨100, 0, 1⟩, ⟨101, 1, 2⟩])
    ∧ (generate_trend_line [⟨100, 0, 1⟩, ⟨101, 1, 2⟩] ⟨2, 0, 0, 0⟩).length = 100 := by
  have hR : 0 ≤ days_range [⟨100, 0, 1⟩, ⟨101, 1, 2⟩] := by
    simp [days_range, List.max?]
  exact ⟨hR, (trend_line_spec [⟨100, 0, 1⟩, ⟨101, 1, 2⟩] ⟨2, 0, 0, 0⟩ hR).1⟩

/-! ## `chart_data_processor._get_inflation_data` -/

/-- One chart row as inflation adjustment sees it: display date, nominal
wealth, and the two possibly-missing price-index columns. -/
structure InflationRow where
  date_str : String
  total_wealth : ℚ
  cpi_u : Option ℚ
  pce : Option ℚ
deriving DecidableEq

/-- The chart frame plus column-presence flags (`col in df.columns`). -/
structure InflationFrame where
  has_cpi_u : Bool
  has_pce : Bool
  rows : List InflationRow
deriving DecidableEq

/-- The record returned by `_prepare_inflation_adjusted_data`. -/
structure InflationResult where
  data : List (String × ℚ)
  inflationType : String
  baseValue : ℚ
deriving DecidableEq

/-- `df[col].dropna().iloc[0]` (0 only in the unreachable empty case). -/
def first_non_missing (col : InflationRow → Option ℚ)
    (rows : List InflationRow) : ℚ :=
  (rows.filterMap col).headD 0

/-- Embedding of `_prepare_inflation_adjusted_data`: keep the rows whose
index value is present and positive, scaling by `base / index`. -/
def prepare_inflation_adjusted_data (rows : List InflationRow)
    (col : InflationRow → Option ℚ) (name : String) : InflationResult :=
  let base := first_non_missing col rows
  { data := rows.filterMap (fun r =>
      match col r with
      | some v =>
          if 0 < v then some (r.date_str, r.total_wealth * (base / v)) else none
      | none => none)
    inflationType := name
    baseValue := base }

/-- Embedding of `_get_inflation_data`: try `cpi_u` then `pce`, each
requiring column presence and at least one non-missing value. -/
def get_inflation_data (f : InflationFrame) : Option InflationResult :=
  if f.has_cpi_u && f.rows.any (fun r => r.cpi_u.isSome) then
    some (prepare_inflation_adjusted_data f.rows (fun r => r.cpi_u) "CPI_U")
  else if f.has_pce && f.rows.any (fun r => r.pce.isSome) then
    some (prepare_inflation_adjusted_data f.rows (fun r => r.pce) "PCE")
  else none

/-- **C9.** Inflation adjustment selects the first index column with a
non-missing value, takes that column's first non-missing value as base,
outputs `nominal · (base / index)` exactly for rows with a present,
positive index value (dropping the rest), and returns no series (not an
error) when neither column has a value. The frame hypotheses record
that an absent column carries no values. -/
theorem inflation_data_spec (f : InflationFrame)
    (hc : f.has_cpi_u = false → ∀ r ∈ f.rows, r.cpi_u = none)
    (hp : f.has_pce = false → ∀ r ∈ f.rows, r.pce = none) :
    ((¬ ∃ r ∈ f.rows, r.cpi_u.isSome) ∧ (¬ ∃ r ∈ f.rows, r.pce.isSome) →
        get_inflation_data f = none)
    ∧ ((∃ r ∈ f.rows, r.cpi_u.isSome) →
        get_inflation_data f = some
          { data := f.rows.filterMap (fun r =>
              match r.cpi_u with
              | some v =>
                  if 0 < v then
                    some (r.date_str, r.total_wealth
                      * (first_non_missing (fun t => t.cpi_u) f.rows / v))
                  else none
              | none => none)
            inflationType := "CPI_U"
            baseValue := first_non_missing (fun t => t.cpi_u) f.rows })
    ∧ ((¬ ∃ r ∈ f.rows, r.cpi_u.isSome) → (∃ r ∈ f.rows, r.pce.isSome) →
        get_inflation_data f = some
          { data := f.rows.filterMap (fun r =>
              match r.pce with
              | some v =>
                  if 0 < v then
                    some (r.date_str, r.total_wealth
                      * (first_non_missing (fun t => t.pce) f.rows / v))
                  else none
              | none => none)
            inflationType := "PCE"
            baseValue := first_non_missing (fun t => t.pce) f.rows }) := by
  refine ⟨?_, ?_, ?_⟩
  · rintro ⟨h1, h2⟩
    have ha1 : f.rows.any (fun r => r.cpi_u.isSome) = false := by
      rw [← Bool.not_eq_true, List.any_eq_true]
      exact h1
    have ha2 : f.rows.any (fun r => r.pce.isSome) = false := by
      rw [← Bool.not_eq_true, List.any_eq_true]
      exact h2
    simp [get_inflation_data, ha1, ha2]
  · intro h1
    have hctrue : f.has_cpi_u = true := by
      by_contra hcf
      rw [Bool.not_eq_true] at hcf
      obtain ⟨r, hr, hsome⟩ := h1
      rw [hc hcf r hr] at hsome
      simp at hsome
    have ha1 : f.rows.any (fun r => r.cpi_u.isSome) = true :=
      List.any_eq_true.mpr h1
    simp only [get_inflation_data, hctrue, ha1, Bool.and_self, if_true]
    rfl
  · intro h1 h2
    have ha1 : f.rows.any (fun r => r.cpi_u.isSome) = false := by
      rw [← Bool.not_eq_true, List.any_eq_true]
      exact h1
    have hptrue : f.has_pce = true := by
      by_contra hpf
      rw [Bool.not_eq_true] at hpf
      obtain ⟨r, hr, hsome⟩ := h2
      rw [hp hpf r hr] at hsome
      simp at hsome
    have ha2 : f.rows.any (fun r => r.pce.isSome) = true :=
      List.any_eq_true.mpr h2
    simp only [get_inflation_data, ha1, Bool.and_false, if_false,
      hptrue, ha2, Bool.and_self, if_true]
    rfl

/-- Witness for C9 at a concrete two-row frame with a CPI value. -/
theorem inflation_data_spec_witness :
    (∃ r ∈ ([⟨"a", 10, some 2, none⟩, ⟨"b", 20, none, some 3⟩]
        : List InflationRow), r.cpi_u.isSome)
    ∧ get_inflation_data ⟨true, true,
        [⟨"a", 10, some 2, none⟩, ⟨"b", 20, none, some 3⟩]⟩
      = some
        { data := ([⟨"a", 10, some 2, none⟩, ⟨"b", 20, none, some 3⟩]
            : List InflationRow).filterMap (fun r =>
              match r.cpi_u with
              | some v =>
                  if 0 < v then
                    some (r.date_str, r.total_wealth
                      * (first_non_missing (fun t => t.cpi_u)
                          [⟨"a", 10, some 2, none⟩, ⟨"b", 20, none, some 3⟩] / v))
                  else none
              | none => none)
          inflationType := "CPI_U"
          baseValue := first_non_missing (fun t => t.cpi_u)
            [⟨"a", 10, some 2, none⟩, ⟨"b", 20, none, some 3⟩] } := by
  refine ⟨by decide, ?_⟩
  exact (inflation_data_spec
      ⟨true, true, [⟨"a", 10, some 2, none⟩, ⟨"b", 20, none, some 3⟩]⟩
      (by decide) (by decide)).2.1 (by decide)

/-! ## `background_sparklines.BackgroundSparklineGenerator` -/

/-- `self.target_points = 70`. -/
def target_points : ℕ := 70

/-- `self.wind_len = 40`. -/
def wind_len : ℕ := 40

/-- `interp_length = 10 * target_points - (wind_len - 1)`. -/
def interp_length : ℕ := 10 * target_points - (wind_len - 1)

/-- The oversampled grid has `interp_length + 2 * wind_len` samples
(`np.arange(-wind_len, interp_length + wind_len)`). -/
def grid_size : ℕ := interp_length + 2 * wind_len

/-- The j-th Gaussian window sample:
`np.exp(-np.linspace(-2, 2, wind_len)[j] ** 2)`. -/
noncomputable def window (j : ℕ) : ℝ :=
  Real.exp (-((-2 : ℝ) + 4 * j / ((wind_len : ℝ) - 1)) ^ 2)

/-- `self.window` as a list. -/
noncomputable def window_list : List ℝ := (List.range wind_len).map window

/-- The i-th grid abscissa,
`np.arange(-wind_len, interp_length + wind_len)[i] / interp_length`. -/
noncomputable def grid_point (i : ℕ) : ℝ :=
  ((i : ℝ) - wind_len) / interp_length

/-- `np.interp` over break-point pairs `(xp, fp)`: clamp to the edge
values outside the observed domain, linear interpolation inside. -/
noncomputable def np_interp : List (ℝ × ℝ) → ℝ → ℝ
  | [], _ => 0
  | [(_, y0)], _ => y0
  | (x0, y0) :: (x1, y1) :: rest, t =>
    if t < x1 then
      if t ≤ x0 then y0 else y0 + (y1 - y0) * (t - x0) / (x1 - x0)
    else np_interp ((x1, y1) :: rest) t

/-- The k-th sample of the full convolution `np.convolve(w, f)`. -/
noncomputable def conv_at (w f : List ℝ) (k : ℕ) : ℝ :=
  ∑ j ∈ Finset.range w.length,
    if j ≤ k ∧ k - j < f.length then w.getD j 0 * f.getD (k - j) 0 else 0

/-- Full convolution, length `w.length + f.length - 1`. -/
noncomputable def convolve (w f : List ℝ) : List ℝ :=
  (List.range (w.length + f.length - 1)).map (conv_at w f)

/-- The python extended slice `l[:: step]` (start handled by `drop`). -/
def step_slice (k : ℕ) : List α → List α
  | [] => []
  | x :: xs => x :: step_slice k (xs.drop (k - 1))
  termination_by l => l.length
  decreasing_by
    simp only [List.length_drop, List.length_cons]
    omega

/-- One row of the time-series frame as the sparkline generator sees
it: a date and the one or two configured metric columns (missing values
are `none`). -/
structure SparkRow where
  date : ℤ
  c1 : Option ℝ
  c2 : Option ℝ

/-- The tagged sparkline configuration: a single column or the ratio of
two columns. -/
inductive MetricKind where
  | single
  | ratio

/-- `data.dropna(subset=cols)`: the rows with all required fields. -/
def valid_rows (kind : MetricKind) (rows : List SparkRow) : List SparkRow :=
  match kind with
  | .single => rows.filter (fun r => r.c1.isSome)
  | .ratio => rows.filter (fun r => r.c1.isSome && r.c2.isSome)

/-- The metric value of each valid row; for a ratio, a zero denominator
is replaced by 1 before dividing (`denom.replace(0, 1)`). -/
noncomputable def metric_values (kind : MetricKind) (valid : List SparkRow) :
    List ℝ :=
  match kind with
  | .single => valid.map (fun r => r.c1.getD 0)
  | .ratio => valid.map (fun r =>
      r.c1.getD 0 / (if r.c2.getD 0 = 0 then 1 else r.c2.getD 0))

/-- Greatest element of a list (`pandas`/`numpy` `.max()`); the default
only covers the unreachable empty case. -/
def list_max [Max α] (d : α) : List α → α
  | [] => d
  | a :: xs => xs.foldl max a

/-- Least element of a list (`.min()`). -/
def list_min [Min α] (d : α) : List α → α
  | [] => d
  | a :: xs => xs.foldl min a

/-- `days / days.max()` where `days` counts from the first valid
date. -/
noncomputable def day_norms (valid : List SparkRow) : List ℝ :=
  let first := (valid.head?.map (·.date)).getD 0
  let days := valid.map (fun r => ((r.date - first : ℤ) : ℝ))
  days.map (fun d => d / list_max 0 days)

/-- `np.interp(grid, days_norm, values)`. -/
noncomputable def interp_grid (vs ds : List ℝ) : List ℝ :=
  (List.range grid_size).map (fun i => np_interp (ds.zip vs) (grid_point i))

/-- `np.convolve(self.window, interp_vals)`. -/
noncomputable def smoothed_full (vs ds : List ℝ) : List ℝ :=
  convolve window_list (interp_grid vs ds)

/-- `smoothed[self.wind_len : -self.wind_len : 10]`. -/
noncomputable def smooth_pipeline (vs ds : List ℝ) : List ℝ :=
  step_slice 10 (((smoothed_full vs ds).drop wind_len).take
    ((smoothed_full vs ds).length - 2 * wind_len))

/-- Embedding of `BackgroundSparklineGenerator._process_data`. -/
noncomputable def process_data (kind : MetricKind) (rows : List SparkRow) :
    List ℝ :=
  if (valid_rows kind rows).isEmpty then List.replicate target_points 0
  else smooth_pipeline (metric_values kind (valid_rows kind rows))
    (day_norms (valid_rows kind rows))

lemma step_slice_length (k : ℕ) (hk : 0 < k) (l : List α) :
    (step_slice k l).length = (l.length + k - 1) / k := by
  induction l using step_slice.induct k with
  | case1 =>
    simp only [step_slice, List.length_nil, Nat.zero_add]
    rw [Nat.div_eq_of_lt (by omega : k - 1 < k)]
  | case2 x xs ih =>
    simp only [step_slice, List.length_cons, List.length_drop] at ih ⊢
    rw [ih]
    have hstep : xs.length + 1 + k - 1 = xs.length + k := by omega
    rw [hstep, Nat.add_div_right _ hk]
    by_cases h : k - 1 ≤ xs.length
    · have hcancel : xs.length - (k - 1) + k - 1 = xs.length := by omega
      rw [hcancel]
    · have h1 : xs.length - (k - 1) + k - 1 = k - 1 := by omega
      have h2 : xs.length / k = 0 := Nat.div_eq_of_lt (by omega)
      rw [h1, h2, Nat.div_eq_of_lt (by omega : k - 1 < k)]

lemma window_list_length : window_list.length = wind_len := by
  simp [window_list]

lemma interp_grid_length (vs ds : List ℝ) :
    (interp_grid vs ds).length = grid_size := by
  simp [interp_grid]

lemma convolve_length (w f : List ℝ) :
    (convolve w f).length = w.length + f.length - 1 := by
  simp [convolve]

lemma smoothed_full_length (vs ds : List ℝ) :
    (smoothed_full vs ds).length = 780 := by
  rw [smoothed_full, convolve_length, window_list_length, interp_grid_length]
  rfl

lemma smooth_pipeline_length (vs ds : List ℝ) :
    (smooth_pipeline vs ds).length = 70 := by
  rw [smooth_pipeline, step_slice_length 10 (by norm_num),
    List.length_take, List.length_drop, smoothed_full_length]
  rfl

/-- **C1.** Whenever at least one row survives the dropping of rows
with missing required fields, `_process_data` returns exactly 70
smoothed values, whatever the input length; with no valid rows it
returns the length-70 all-zero sequence. -/
theorem process_data_length_spec (kind : MetricKind) (rows : List SparkRow) :
    (valid_rows kind rows ≠ [] → (process_data kind rows).length = 70)
    ∧ (valid_rows kind rows = [] →
        process_data kind rows = List.replicate 70 0) := by
  constructor
  · intro h
    have hne : ¬ (valid_rows kind rows).isEmpty = true := by
      simpa [List.isEmpty_iff] using h
    rw [process_data, if_neg hne]
    exact smooth_pipeline_length _ _
  · intro h
    rw [process_data, if_pos (by simp [h])]
    rfl

/-- Witness for C1 at a concrete two-row series. -/
theorem process_data_length_spec_witness :
    (valid_rows MetricKind.single [⟨0, some 1, none⟩, ⟨1, some 2, none⟩] ≠ [])
    ∧ (process_data MetricKind.single
        [⟨0, some 1, none⟩, ⟨1, some 2, none⟩]).length = 70 := by
  have h : valid_rows MetricKind.single
      [⟨0, some 1, none⟩, ⟨1, some 2, none⟩] ≠ [] :=
    List.cons_ne_nil _ _
  exact ⟨h, (process_data_length_spec MetricKind.single
    [⟨0, some 1, none⟩, ⟨1, some 2, none⟩]).1 h⟩

/-- The min–max normalisation step of `_generate_coordinates`: values
map to `[0,1]`; a flat series maps to zeros (`np.zeros_like`). -/
noncomputable def normalize_vals (data : List ℝ) : List ℝ :=
  if list_min 0 data < list_max 0 data then
    data.map (fun v =>
      (v - list_min 0 data) / (list_max 0 data - list_min 0 data))
  else data.map (fun _ => 0)

/-- Embedding of `_generate_coordinates` for a `w × h` card with the
fixed padding 15: `y = h - padding - normalized·(h - 2·padding)` and
`x = np.linspace(0, w, len(data))`. -/
noncomputable def generate_coordinates (w h : ℝ) (data : List ℝ) :
    List (ℝ × ℝ) :=
  ((List.range data.length).map
      (fun (i : ℕ) => w * i / ((data.length : ℝ) - 1))).zip
    ((normalize_vals data).map (fun t => h - 15 - t * (h - 2 * 15)))

lemma foldl_max_le_init (l : List ℝ) : ∀ a : ℝ, a ≤ l.foldl max a := by
  induction l with
  | nil => intro a; exact le_refl _
  | cons b xs ih => intro a; exact le_trans (le_max_left a b) (ih (max a b))

lemma mem_le_foldl_max (l : List ℝ) : ∀ (a v : ℝ), v ∈ l → v ≤ l.foldl max a := by
  induction l with
  | nil => intro a v h; cases h
  | cons b xs ih =>
    intro a v hv
    rcases List.mem_cons.mp hv with rfl | h
    · exact le_trans (le_max_right a v) (foldl_max_le_init xs (max a v))
    · exact ih (max a b) v h

lemma mem_le_list_max (l : List ℝ) (v : ℝ) (hv : v ∈ l) : v ≤ list_max 0 l := by
  cases l with
  | nil => cases hv
  | cons a xs =>
    rcases List.mem_cons.mp hv with rfl | h
    · exact foldl_max_le_init xs v
    · exact mem_le_foldl_max xs a v h

lemma init_le_foldl_min (l : List ℝ) : ∀ a : ℝ, l.foldl min a ≤ a := by
  induction l with
  | nil => intro a; exact le_refl _
  | cons b xs ih => intro a; exact le_trans (ih (min a b)) (min_le_left a b)

lemma foldl_min_le_mem (l : List ℝ) : ∀ (a v : ℝ), v ∈ l → l.foldl min a ≤ v := by
  induction l with
  | nil => intro a v h; cases h
  | cons b xs ih =>
    intro a v hv
    rcases List.mem_cons.mp hv with rfl | h
    · exact le_trans (init_le_foldl_min xs (min a v)) (min_le_right a v)
    · exact ih (min a b) v h

lemma list_min_le_mem (l : List ℝ) (v : ℝ) (hv : v ∈ l) : list_min 0 l ≤ v := by
  cases l with
  | nil => cases hv
  | cons a xs =>
    rcases List.mem_cons.mp hv with rfl | h
    · exact init_le_foldl_min xs v
    · exact foldl_min_le_mem xs a v h

lemma normalize_vals_mem (data : List ℝ) (t : ℝ) (ht : t ∈ normalize_vals data) :
    0 ≤ t ∧ t ≤ 1 := by
  rw [normalize_vals] at ht
  by_cases hlt : list_min 0 data < list_max 0 data
  · rw [if_pos hlt, List.mem_map] at ht
    obtain ⟨v, hv, rfl⟩ := ht
    have h1 : list_min 0 data ≤ v := list_min_le_mem data v hv
    have h2 : v ≤ list_max 0 data := mem_le_list_max data v hv
    have hden : 0 < list_max 0 data - list_min 0 data := by linarith
    constructor
    · exact div_nonneg (by linarith) (le_of_lt hden)
    · rw [div_le_one hden]
      linarith
  · rw [if_neg hlt, List.mem_map] at ht
    obtain ⟨v, _, rfl⟩ := ht
    norm_num

/-- **C10.** Every coordinate pair emitted by `_generate_coordinates`
stays inside the padded frame: `0 ≤ x ≤ card_width` and
`padding ≤ y ≤ card_height - padding` (with the default card,
`0 ≤ x ≤ 280` and `15 ≤ y ≤ 105`), because min–max normalisation lands
in `[0,1]`. -/
theorem coordinates_in_frame (w h : ℝ) (hw : 0 ≤ w) (hh : 30 ≤ h)
    (data : List ℝ) (x y : ℝ)
    (hmem : (x, y) ∈ generate_coordinates w h data) :
    0 ≤ x ∧ x ≤ w ∧ 15 ≤ y ∧ y ≤ h - 15 := by
  rw [generate_coordinates] at hmem
  obtain ⟨hx, hy⟩ := List.of_mem_zip hmem
  rw [List.mem_map] at hx hy
  obtain ⟨i, hi, rfl⟩ := hx
  obtain ⟨t, ht, rfl⟩ := hy
  rw [List.mem_range] at hi
  obtain ⟨ht0, ht1⟩ := normalize_vals_mem data t ht
  have hx0 : (0 : ℝ) ≤ w * i / ((data.length : ℝ) - 1) := by
    have hn1 : (1 : ℝ) ≤ (data.length : ℝ) := by
      have : 1 ≤ data.length := by omega
      exact_mod_cast this
    apply div_nonneg (mul_nonneg hw (Nat.cast_nonneg i))
    linarith
  refine ⟨hx0, ?_, by nlinarith, by nlinarith⟩
  rcases eq_or_lt_of_le (by
      have hn1 : (1 : ℝ) ≤ (data.length : ℝ) := by
        have : 1 ≤ data.length := by omega
        exact_mod_cast this
      linarith : (0 : ℝ) ≤ (data.length : ℝ) - 1) with hc | hc
  · rw [← hc, div_zero]
    exact hw
  · rw [div_le_iff₀ hc]
    have hi1 : (i : ℝ) ≤ (data.length : ℝ) - 1 := by
      have : i + 1 ≤ data.length := hi
      have := (Nat.cast_le (α := ℝ)).mpr this
      push_cast at this
      linarith
    nlinarith

/-- Witness for C10 at the default card and a one-point series. -/
theorem coordinates_in_frame_witness :
    (((0 : ℝ), (105 : ℝ)) ∈ generate_coordinates 280 120 [5])
    ∧ (0 ≤ (0 : ℝ) ∧ (0 : ℝ) ≤ 280 ∧ 15 ≤ (105 : ℝ) ∧ (105 : ℝ) ≤ 120 - 15) := by
  have hmem : (((0 : ℝ), (105 : ℝ)) ∈ generate_coordinates 280 120 [5]) := by
    have hcoords : generate_coordinates 280 120 [5] = [((0 : ℝ), (105 : ℝ))] := by
      norm_num [generate_coordinates, normalize_vals, list_min, list_max,
        List.range_succ]
    rw [hcoords]
    exact List.mem_singleton.mpr rfl
  exact ⟨hmem,
    coordinates_in_frame 280 120 (by norm_num) (by norm_num) [5] 0 105 hmem⟩

/-- Sum of the Gaussian window samples. -/
noncomputable def window_sum : ℝ := ∑ j ∈ Finset.range wind_len, window j

lemma zip_map_snd (f : ℝ → ℝ) :
    ∀ (ds vs : List ℝ), ds.zip (vs.map f)
      = (ds.zip vs).map (fun p => (p.1, f p.2))
  | [], _ => by simp
  | _ :: _, [] => by simp
  | d :: ds, v :: vs => by
    simp only [List.map_cons, List.zip_cons_cons]
    rw [zip_map_snd f ds vs]

lemma np_interp_map_affine (s o : ℝ) :
    ∀ (pts : List (ℝ × ℝ)), pts ≠ [] → ∀ t : ℝ,
      np_interp (pts.map (fun p => (p.1, s * p.2 + o))) t
        = s * np_interp pts t + o
  | [], h, _ => absurd rfl h
  | [(_, _)], _, t => by
    simp [np_interp]
  | (x0, y0) :: (x1, y1) :: rest, _, t => by
    have ih := np_interp_map_affine s o ((x1, y1) :: rest)
      (List.cons_ne_nil _ _) t
    simp only [List.map_cons, np_interp]
    by_cases h1 : t < x1
    · by_cases h0 : t ≤ x0
      · rw [if_pos h1, if_pos h1, if_pos h0, if_pos h0]
      · rw [if_pos h1, if_pos h1, if_neg h0, if_neg h0]
        ring
    · rw [if_neg h1, if_neg h1]
      simpa only [List.map_cons] using ih

lemma np_interp_const (c : ℝ) :
    ∀ (pts : List (ℝ × ℝ)), pts ≠ [] → (∀ p ∈ pts, p.2 = c) → ∀ t : ℝ,
      np_interp pts t = c
  | [], h, _, _ => absurd rfl h
  | [(x0, y0)], _, hc, t => by
    have : y0 = c := hc (x0, y0) (List.mem_singleton.mpr rfl)
    simp [np_interp, this]
  | (x0, y0) :: (x1, y1) :: rest, _, hc, t => by
    have h0 : y0 = c := hc (x0, y0) (List.mem_cons_self _ _)
    have h1 : y1 = c := hc (x1, y1)
      (List.mem_cons_of_mem _ (List.mem_cons_self _ _))
    have ih := np_interp_const c ((x1, y1) :: rest) (List.cons_ne_nil _ _)
      (fun p hp => hc p (List.mem_cons_of_mem _ hp)) t
    simp only [np_interp]
    by_cases ht1 : t < x1
    · by_cases ht0 : t ≤ x0
      · rw [if_pos ht1, if_pos ht0, h0]
      · rw [if_pos ht1, if_neg ht0, h0, h1]
        ring
    · rw [if_neg ht1]
      exact ih

lemma getD_map_lt (f : ℝ → ℝ) (l : List ℝ) (m : ℕ) (hm : m < l.length) :
    (l.map f).getD m 0 = f (l.getD m 0) := by
  rw [List.getD_eq_getElem?_getD, List.getD_eq_getElem?_getD,
    List.getElem?_map, List.getElem?_eq_getElem hm]
  rfl

lemma window_list_getD (j : ℕ) (hj : j < wind_len) :
    window_list.getD j 0 = window j := by
  rw [window_list, List.getD_eq_getElem?_getD, List.getElem?_map,
    List.getElem?_range hj]
  rfl

lemma interp_grid_getD (vs ds : List ℝ) (m : ℕ) (hm : m < grid_size) :
    (interp_grid vs ds).getD m 0 = np_interp (ds.zip vs) (grid_point m) := by
  rw [interp_grid, List.getD_eq_getElem?_getD, List.getElem?_map,
    List.getElem?_range hm]
  rfl

lemma conv_at_interior (f : List ℝ) (hf : f.length = grid_size) (k : ℕ)
    (hk1 : wind_len ≤ k) (hk2 : k ≤ 739) :
    conv_at window_list f k
      = ∑ j ∈ Finset.range wind_len,
          window j * f.getD (k - j) 0 := by
  rw [conv_at, window_list_length]
  refine Finset.sum_congr rfl (fun j hj => ?_)
  rw [Finset.mem_range] at hj
  rw [if_pos ⟨by omega, by rw [hf]; change k - j < 741; omega⟩,
    window_list_getD j hj]

lemma conv_at_interior_affine (s o : ℝ) (f : List ℝ)
    (hf : f.length = grid_size) (k : ℕ) (hk1 : wind_len ≤ k) (hk2 : k ≤ 739) :
    conv_at window_list (f.map (fun v => s * v + o)) k
      = s * conv_at window_list f k + o * window_sum := by
  have hf2 : (f.map (fun v => s * v + o)).length = grid_size := by
    rw [List.length_map, hf]
  rw [conv_at_interior _ hf2 k hk1 hk2, conv_at_interior f hf k hk1 hk2,
    window_sum, Finset.mul_sum, Finset.mul_sum, ← Finset.sum_add_distrib]
  refine Finset.sum_congr rfl (fun j hj => ?_)
  rw [Finset.mem_range] at hj
  have hkj : k - j < f.length := by
    rw [hf]
    change k - j < 741
    omega
  rw [getD_map_lt _ f _ hkj]
  ring

lemma conv_at_interior_const (c : ℝ) (f : List ℝ)
    (hf : f.length = grid_size) (hc : ∀ m < grid_size, f.getD m 0 = c)
    (k : ℕ) (hk1 : wind_len ≤ k) (hk2 : k ≤ 739) :
    conv_at window_list f k = c * window_sum := by
  rw [conv_at_interior f hf k hk1 hk2, window_sum, Finset.mul_sum]
  refine Finset.sum_congr rfl (fun j hj => ?_)
  rw [Finset.mem_range] at hj
  rw [hc (k - j) (by change k - j < 741; omega)]
  ring

lemma smoothed_full_getElem (vs ds : List ℝ) (m : ℕ) (hm : m < 780) :
    (smoothed_full vs ds)[m]?
      = some (conv_at window_list (interp_grid vs ds) m) := by
  have hn : m < window_list.length + (interp_grid vs ds).length - 1 := by
    rw [window_list_length, interp_grid_length]
    exact hm
  rw [smoothed_full, convolve, List.getElem?_map, List.getElem?_range hn]
  rfl

/-- The trimmed convolution `smoothed[wind_len : -wind_len]`. -/
noncomputable def trimmed (vs ds : List ℝ) : List ℝ :=
  ((smoothed_full vs ds).drop wind_len).take
    ((smoothed_full vs ds).length - 2 * wind_len)

lemma smooth_pipeline_eq_slice (vs ds : List ℝ) :
    smooth_pipeline vs ds = step_slice 10 (trimmed vs ds) := rfl

lemma trimmed_getElem (vs ds : List ℝ) (i : ℕ) :
    (trimmed vs ds)[i]?
      = if i < 700
        then some (conv_at window_list (interp_grid vs ds) (wind_len + i))
        else none := by
  have hlen : (smoothed_full vs ds).length - 2 * wind_len = 700 := by
    rw [smoothed_full_length]
    rfl
  by_cases hi : i < 700
  · rw [if_pos hi, trimmed, hlen, List.getElem?_take_of_lt hi,
      List.getElem?_drop, smoothed_full_getElem vs ds (wind_len + i)
        (by change 40 + i < 780; omega)]
  · rw [if_neg hi]
    apply List.getElem?_eq_none
    rw [trimmed, List.length_take, List.length_drop, smoothed_full_length]
    change (780 - 2 * 40) ⊓ (780 - 40) ≤ i
    omega

lemma interp_grid_map_affine (s o : ℝ) (vs ds : List ℝ)
    (hne : ds.zip vs ≠ []) :
    interp_grid (vs.map (fun v => s * v + o)) ds
      = (interp_grid vs ds).map (fun v => s * v + o) := by
  rw [interp_grid, interp_grid, List.map_map]
  refine List.map_congr_left (fun i _ => ?_)
  show np_interp (ds.zip (vs.map (fun v => s * v + o))) (grid_point i)
      = s * np_interp (ds.zip vs) (grid_point i) + o
  rw [zip_map_snd]
  exact np_interp_map_affine s o _ hne _

lemma trimmed_map_affine (s o : ℝ) (vs ds : List ℝ) (hne : ds.zip vs ≠ []) :
    trimmed (vs.map (fun v => s * v + o)) ds
      = (trimmed vs ds).map (fun v => s * v + o * window_sum) := by
  apply List.ext_getElem?
  intro i
  rw [List.getElem?_map, trimmed_getElem, trimmed_getElem]
  by_cases hi : i < 700
  · rw [if_pos hi, if_pos hi, interp_grid_map_affine s o vs ds hne,
      conv_at_interior_affine s o (interp_grid vs ds) (interp_grid_length vs ds)
        (wind_len + i) (Nat.le_add_right _ _) (by change 40 + i ≤ 739; omega)]
    rfl
  · rw [if_neg hi, if_neg hi]
    rfl

lemma step_slice_map (f : α → β) (k : ℕ) (l : List α) :
    step_slice k (l.map f) = (step_slice k l).map f := by
  induction l using step_slice.induct k with
  | case1 => simp [step_slice]
  | case2 x xs ih =>
    simp only [List.map_cons, step_slice]
    rw [← List.map_drop, ih]

lemma step_slice_subset (k : ℕ) (l : List α) :
    ∀ v, v ∈ step_slice k l → v ∈ l := by
  induction l using step_slice.induct k with
  | case1 =>
    intro v hv
    simp only [step_slice] at hv
    cases hv
  | case2 x xs ih =>
    intro v hv
    simp only [step_slice] at hv
    rcases List.mem_cons.mp hv with rfl | h
    · exact List.mem_cons_self _ _
    · exact List.mem_cons_of_mem _ (List.drop_subset _ _ (ih v h))

lemma smooth_pipeline_map_affine (s o : ℝ) (vs ds : List ℝ)
    (hne : ds.zip vs ≠ []) :
    smooth_pipeline (vs.map (fun v => s * v + o)) ds
      = (smooth_pipeline vs ds).map (fun v => s * v + o * window_sum) := by
  rw [smooth_pipeline_eq_slice, smooth_pipeline_eq_slice,
    trimmed_map_affine s o vs ds hne, step_slice_map]

lemma max_affine (s o : ℝ) (hs : 0 < s) (u v : ℝ) :
    max (s * u + o) (s * v + o) = s * max u v + o := by
  rcases le_total u v with h | h
  · rw [max_eq_right h, max_eq_right (by nlinarith)]
  · rw [max_eq_left h, max_eq_left (by nlinarith)]

lemma min_affine (s o : ℝ) (hs : 0 < s) (u v : ℝ) :
    min (s * u + o) (s * v + o) = s * min u v + o := by
  rcases le_total u v with h | h
  · rw [min_eq_left h, min_eq_left (by nlinarith)]
  · rw [min_eq_right h, min_eq_right (by nlinarith)]

lemma foldl_max_map_affine (s o : ℝ) (hs : 0 < s) :
    ∀ (xs : List ℝ) (a : ℝ),
      (xs.map (fun v => s * v + o)).foldl max (s * a + o)
        = s * xs.foldl max a + o := by
  intro xs
  induction xs with
  | nil => intro a; rfl
  | cons b xs ih =>
    intro a
    simp only [List.map_cons, List.foldl_cons]
    rw [max_affine s o hs, ih (max a b)]

lemma foldl_min_map_affine (s o : ℝ) (hs : 0 < s) :
    ∀ (xs : List ℝ) (a : ℝ),
      (xs.map (fun v => s * v + o)).foldl min (s * a + o)
        = s * xs.foldl min a + o := by
  intro xs
  induction xs with
  | nil => intro a; rfl
  | cons b xs ih =>
    intro a
    simp only [List.map_cons, List.foldl_cons]
    rw [min_affine s o hs, ih (min a b)]

lemma list_max_map_affine (s o : ℝ) (hs : 0 < s) (l : List ℝ) (hne : l ≠ []) :
    list_max 0 (l.map (fun v => s * v + o)) = s * list_max 0 l + o := by
  cases l with
  | nil => exact absurd rfl hne
  | cons a xs =>
    simp only [List.map_cons, list_max]
    exact foldl_max_map_affine s o hs xs a

lemma list_min_map_affine (s o : ℝ) (hs : 0 < s) (l : List ℝ) (hne : l ≠ []) :
    list_min 0 (l.map (fun v => s * v + o)) = s * list_min 0 l + o := by
  cases l with
  | nil => exact absurd rfl hne
  | cons a xs =>
    simp only [List.map_cons, list_min]
    exact foldl_min_map_affine s o hs xs a

lemma normalize_vals_map_affine (s o : ℝ) (hs : 0 < s) (l : List ℝ) :
    normalize_vals (l.map (fun v => s * v + o)) = normalize_vals l := by
  rcases eq_or_ne l [] with rfl | hne
  · simp [normalize_vals]
  · have hmin := list_min_map_affine s o hs l hne
    have hmax := list_max_map_affine s o hs l hne
    by_cases h : list_min 0 l < list_max 0 l
    · rw [normalize_vals, if_pos (by rw [hmin, hmax]; nlinarith),
        normalize_vals, if_pos h, hmin, hmax, List.map_map]
      refine List.map_congr_left (fun v _ => ?_)
      show (s * v + o - (s * list_min 0 l + o))
          / (s * list_max 0 l + o - (s * list_min 0 l + o))
        = (v - list_min 0 l) / (list_max 0 l - list_min 0 l)
      have hnum : s * v + o - (s * list_min 0 l + o)
          = s * (v - list_min 0 l) := by ring
      have hden : s * list_max 0 l + o - (s * list_min 0 l + o)
          = s * (list_max 0 l - list_min 0 l) := by ring
      rw [hnum, hden, mul_div_mul_left _ _ (ne_of_gt hs)]
    · rw [normalize_vals, if_neg (by rw [hmin, hmax]; intro hcon; apply h; nlinarith),
        normalize_vals, if_neg h, List.map_map]
      rfl

/-- Coordinates are unchanged by a positive affine transformation of
the smoothed values (min–max normalisation is affine invariant). -/
lemma generate_coordinates_map_affine (w h s o : ℝ) (hs : 0 < s)
    (data : List ℝ) :
    generate_coordinates w h (data.map (fun v => s * v + o))
      = generate_coordinates w h data := by
  rw [generate_coordinates, generate_coordinates, List.length_map,
    normalize_vals_map_affine s o hs data]

lemma foldl_max_all_eq (m : ℝ) :
    ∀ xs : List ℝ, (∀ v ∈ xs, v = m) → xs.foldl max m = m := by
  intro xs
  induction xs with
  | nil => intro _; rfl
  | cons b xs ih =>
    intro h
    have hb : b = m := h b (List.mem_cons_self _ _)
    rw [List.foldl_cons, hb, max_self]
    exact ih (fun v hv => h v (List.mem_cons_of_mem _ hv))

lemma foldl_min_all_eq (m : ℝ) :
    ∀ xs : List ℝ, (∀ v ∈ xs, v = m) → xs.foldl min m = m := by
  intro xs
  induction xs with
  | nil => intro _; rfl
  | cons b xs ih =>
    intro h
    have hb : b = m := h b (List.mem_cons_self _ _)
    rw [List.foldl_cons, hb, min_self]
    exact ih (fun v hv => h v (List.mem_cons_of_mem _ hv))

lemma normalize_vals_flat (l : List ℝ) (hne : l ≠ []) (m : ℝ)
    (h : ∀ v ∈ l, v = m) :
    normalize_vals l = List.replicate l.length 0 := by
  cases l with
  | nil => exact absurd rfl hne
  | cons a xs =>
    have ha : a = m := h a (List.mem_cons_self _ _)
    have hxs : ∀ v ∈ xs, v = m := fun v hv => h v (List.mem_cons_of_mem _ hv)
    have hmax : list_max 0 (a :: xs) = m := by
      rw [list_max, ha]
      exact foldl_max_all_eq m xs hxs
    have hmin : list_min 0 (a :: xs) = m := by
      rw [list_min, ha]
      exact foldl_min_all_eq m xs hxs
    rw [normalize_vals, if_neg (by rw [hmin, hmax]; exact lt_irrefl m),
      List.map_const']

lemma smooth_pipeline_flat (vs ds : List ℝ) (c : ℝ) (hne : ds.zip vs ≠ [])
    (hc : ∀ v ∈ vs, v = c) :
    ∀ v ∈ smooth_pipeline vs ds, v = c * window_sum := by
  have hpts : ∀ p ∈ ds.zip vs, p.2 = c :=
    fun p hp => hc p.2 (List.of_mem_zip hp).2
  have hgrid : ∀ m < grid_size, (interp_grid vs ds).getD m 0 = c := by
    intro m hm
    rw [interp_grid_getD vs ds m hm]
    exact np_interp_const c _ hne hpts _
  intro v hv
  rw [smooth_pipeline_eq_slice] at hv
  have hvt := step_slice_subset 10 _ v hv
  rw [List.mem_iff_getElem?] at hvt
  obtain ⟨i, hi⟩ := hvt
  rw [trimmed_getElem] at hi
  by_cases h700 : i < 700
  · rw [if_pos h700, conv_at_interior_const c (interp_grid vs ds)
      (interp_grid_length vs ds) hgrid (wind_len + i) (Nat.le_add_right _ _)
      (by change 40 + i ≤ 739; omega)] at hi
    exact (Option.some.inj hi).symm
  · rw [if_neg h700] at hi
    cases hi

/-- **C6.** Replacing each metric value `v` by `s·v + o` (`s > 0`)
leaves the sparkline coordinates unchanged — here exactly, since the
embedding uses real arithmetic; and when all metric values of the valid
rows are equal, the min–max-normalised output is the all-zero flat
length-70 sequence (no division by zero, hence no NaN, occurs: the flat
branch is taken). -/
theorem sparkline_affine_and_flat (s o c w h : ℝ) (hs : 0 < s)
    (kind : MetricKind) (rows : List SparkRow) (vs ds : List ℝ) :
    generate_coordinates w h (smooth_pipeline (vs.map (fun v => s * v + o)) ds)
        = generate_coordinates w h (smooth_pipeline vs ds)
    ∧ (valid_rows kind rows ≠ [] →
        (∀ v ∈ metric_values kind (valid_rows kind rows), v = c) →
        normalize_vals (process_data kind rows) = List.replicate 70 0) := by
  constructor
  · by_cases hz : ds.zip vs = []
    · have hz2 : ds.zip (vs.map (fun v => s * v + o)) = [] := by
        rw [zip_map_snd, hz]
        rfl
      have hgrid : interp_grid (vs.map (fun v => s * v + o)) ds
          = interp_grid vs ds := by
        rw [interp_grid, interp_grid]
        refine List.map_congr_left (fun i _ => ?_)
        rw [hz2, hz]
      have hpipe : smooth_pipeline (vs.map (fun v => s * v + o)) ds
          = smooth_pipeline vs ds := by
        rw [smooth_pipeline_eq_slice, smooth_pipeline_eq_slice, trimmed,
          trimmed, smoothed_full, smoothed_full, hgrid]
      rw [hpipe]
    · rw [smooth_pipeline_map_affine s o vs ds hz]
      exact generate_coordinates_map_affine w h s (o * window_sum) hs _
  · intro hvalid hconst
    have hne2 : ¬ (valid_rows kind rows).isEmpty = true := by
      simpa [List.isEmpty_iff] using hvalid
    rw [process_data, if_neg hne2]
    set valid := valid_rows kind rows with hvdef
    have hlenv : 0 < valid.length := List.length_pos.mpr hvalid
    have hzlen : 0 < ((day_norms valid).zip (metric_values kind valid)).length := by
      rw [List.length_zip]
      have hd : (day_norms valid).length = valid.length := by
        simp [day_norms]
      have hm : (metric_values kind valid).length = valid.length := by
        cases kind <;> simp [metric_values]
      rw [hd, hm]
      simpa using hlenv
    have hzne : (day_norms valid).zip (metric_values kind valid) ≠ [] :=
      List.length_pos.mp hzlen
    have hflat := smooth_pipeline_flat (metric_values kind valid)
      (day_norms valid) c hzne hconst
    have hplen : (smooth_pipeline (metric_values kind valid)
        (day_norms valid)).length = 70 := smooth_pipeline_length _ _
    have hpne : smooth_pipeline (metric_values kind valid) (day_norms valid)
        ≠ [] := by
      intro hcon
      rw [hcon] at hplen
      exact absurd hplen (by norm_num)
    rw [normalize_vals_flat _ hpne (c * window_sum) hflat, hplen]

/-- Witness for C6 at a concrete one-row constant series. -/
theorem sparkline_affine_and_flat_witness :
    ((0 : ℝ) < 2)
    ∧ (valid_rows MetricKind.single [⟨0, some 5, none⟩] ≠ [])
    ∧ (∀ v ∈ metric_values MetricKind.single
        (valid_rows MetricKind.single [⟨0, some 5, none⟩]), v = 5)
    ∧ normalize_vals (process_data MetricKind.single [⟨0, some 5, none⟩])
        = List.replicate 70 0 := by
  have h1 : (0 : ℝ) < 2 := by norm_num
  have h2 : valid_rows MetricKind.single [⟨0, some 5, none⟩] ≠ [] :=
    List.cons_ne_nil _ _
  have h3 : ∀ v ∈ metric_values MetricKind.single
      (valid_rows MetricKind.single [⟨0, some 5, none⟩]), v = 5 := by
    intro v hv
    have : metric_values MetricKind.single
        (valid_rows MetricKind.single [⟨0, some 5, none⟩]) = [5] := rfl
    rw [this] at hv
    simpa using hv
  exact ⟨h1, h2, h3,
    (sparkline_affine_and_flat 2 3 5 280 120 h1 MetricKind.single
      [⟨0, some 5, none⟩] [1, 2] [0, 1]).2 h2 h3⟩

end RedFlags
